import Mathlib

set_option linter.unusedVariables false

/-!
Verification development for the weirb-hrpc request-scoped dependency
injection and resource composition engine.

The definitions below are a shallow embedding of:
- the per-request dependency container (`src/weirb_hrpc/context.py`,
  `Context.require` / `Context.provide`),
- the resource scope composer (`Context.__aenter__` / `Context.__aexit__`),
  where an async-generator scope participant is modelled by the outcomes the
  composer can observe from `asend` / `athrow`,
- the boot-time plugin contract validator (`src/weirb_hrpc/app.py`,
  `App._active_plugins`),
- the request handler adapter error mapping (`App._handler`).

Error objects are modelled up to identity: each constructor application of
`Err` denotes one Python exception object, and the composer's fresh
`RuntimeError` objects are tagged with the participant index of the site
that creates them, so distinct creation sites within one modelled pass give
distinct objects.  Cause assignments (`e.__cause__ = c`) are recorded as an
ordered list of pairs `(e, c)`.
-/

/-- Per-request dependency container state (`context.py`, class `Context`):
`config` is the immutable config snapshot, `container` the eager/resolved
map `_container`, `providers` the lazy provider map `_providers`.  A lazy
provider (a zero-argument constructor) is represented by the value it
returns when invoked. -/
structure Context (V : Type) where
  config : String → Option V
  container : String → Option V
  providers : String → Option V

/-- Python `s.startswith(p)`, on the underlying character data (the
built-in `String.startsWith` does not reduce in the kernel). -/
def pyStartsWith (s p : String) : Bool := List.isPrefixOf p.data s.data

/-- Python slicing `s[n:]`, on the underlying character data. -/
def pyDrop (s : String) (n : Nat) : String := String.mk (s.data.drop n)

/-- Python dict assignment `m[k] = v`. -/
def upd {V : Type} (m : String → Option V) (k : String) (v : V) :
    String → Option V :=
  fun k2 => if k2 = k then some v else m k2

/-- Outcome of `Context.require`: the value, or a `DependencyError` naming
the key. -/
inductive ReqOut (V : Type) where
  | ok : V → ReqOut V
  | depErr : String → ReqOut V
deriving DecidableEq

/-- Result of one `require` call: the outcome, the resulting container
state, and whether a lazy provider was invoked during the call. -/
structure ReqRes (V : Type) where
  out : ReqOut V
  ctx : Context V
  invoked : Bool

/-- `Context.require` (`context.py` lines 13-23): config-namespace lookup
first, then the eager/resolved map, then the lazy provider map with
memoization into the eager map. -/
def Context.require {V : Type} (c : Context V) (key : String) : ReqRes V :=
  if pyStartsWith key "config." then
    match c.config (pyDrop key 7) with
    | none => ⟨ReqOut.depErr key, c, false⟩
    | some v => ⟨ReqOut.ok v, c, false⟩
  else
    match c.container key with
    | some v => ⟨ReqOut.ok v, c, false⟩
    | none =>
      match c.providers key with
      | none => ⟨ReqOut.depErr key, c, false⟩
      | some v => ⟨ReqOut.ok v, { c with container := upd c.container key v }, true⟩

/-- `Context.provide` (`context.py` lines 25-29). -/
def Context.provide {V : Type} (c : Context V) (key : String) (v : V)
    (lazy : Bool) : Context V :=
  if lazy then { c with providers := upd c.providers key v }
  else { c with container := upd c.container key v }

/-- A container operation: `provide(key, value, lazy)` or `require(key)`. -/
inductive COp (V : Type) where
  | provide : String → V → Bool → COp V
  | require : String → COp V

/-- One container operation; the second component is `some k` when the step
invoked the lazy provider registered for `k`. -/
def stepOp {V : Type} (c : Context V) : COp V → Context V × Option String
  | COp.provide k v lz => (c.provide k v lz, none)
  | COp.require k =>
    let r := c.require k
    (r.ctx, if r.invoked then some k else none)

/-- Run a sequence of container operations, collecting the log of lazy
provider invocations. -/
def runOps {V : Type} (c : Context V) : List (COp V) → Context V × List String
  | [] => (c, [])
  | op :: rest =>
    let s := stepOp c op
    let r := runOps s.1 rest
    (r.1, s.2.toList ++ r.2)

/-- Number of occurrences of a key in an invocation log. -/
def countOcc (k : String) : List String → Nat
  | [] => 0
  | s :: rest => (if s = k then 1 else 0) + countOcc k rest

/-- Error objects, by identity.  `user n` is an exception object raised by
a scope participant or the handler; the remaining constructors are the
`RuntimeError` objects the composer creates (`context.py` lines 40, 45-46,
56-57, 61, 78-79, 85), tagged by the participant index they are created
for. -/
inductive Err where
  | user : Nat → Err
  | notYield : Nat → Err
  | nonNoneYield : Nat → Err
  | nonNoneReturn : Nat → Err
  | notStop : Nat → Err
deriving DecidableEq

/-- Observable outcome of a participant's first `asend(None)` (its enter
step): it yields (the flag records whether the yielded value is non-None),
stops without yielding (`StopAsyncIteration`), or raises. -/
inductive EnterOut where
  | yields : Bool → EnterOut
  | stops : EnterOut
  | raises : Err → EnterOut
deriving DecidableEq

/-- Observable outcome of resuming a participant during exit (`athrow` of
the current error, or `asend(None)`): it stops (the flag records whether
`stop.value` is truthy), raises, or yields again. -/
inductive ExitOut where
  | stops : Bool → ExitOut
  | raises : Err → ExitOut
  | yieldsAgain : ExitOut
deriving DecidableEq

/-- A scope participant, modelled by the outcomes the composer observes:
its enter outcome, and its exit outcome as a function of the injected
error (`some e` for `athrow(e)`, `none` for a plain resume). -/
structure Participant where
  onEnter : EnterOut
  onExit : Option Err → ExitOut

/-- A call the composer makes into a participant: an enter call
(`asend(None)` during the forward pass) or an exit call (the injected
error is `some e` for `athrow(e)`, `none` for `asend(None)`). -/
inductive Ev where
  | enterCall : Nat → Ev
  | exitCall : Nat → Option Err → Ev
deriving DecidableEq

/-- Pair each element with its index, starting at `i`. -/
def withIdx {α : Type} : Nat → List α → List (Nat × α)
  | _, [] => []
  | i, a :: rest => (i, a) :: withIdx (i + 1) rest

/-- The error assigned for participant `i` by one forward-pass iteration of
`__aenter__` (`context.py` lines 37-46): `none` means the participant
yielded None and enter continues. -/
def enterOutError (i : Nat) (p : Participant) : Option Err :=
  match p.onEnter with
  | EnterOut.yields false => none
  | EnterOut.yields true => some (Err.nonNoneYield i)
  | EnterOut.stops => some (Err.notYield i)
  | EnterOut.raises e => some e

/-- Index and error of the first participant whose enter fails, if any
(the break point of the forward loop in `__aenter__`). -/
def firstFailure : Nat → List Participant → Option (Nat × Err)
  | _, [] => none
  | i, p :: rest =>
    match enterOutError i p with
    | some e => some (i, e)
    | none => firstFailure (i + 1) rest

/-- State of the unwind loop of `__aenter__` (`context.py` lines 49-65):
the Python locals `error` and `current_error`, the recorded cause
assignments, and the trace of calls made so far. -/
structure UnwState where
  errorV : Err
  current : Err
  causes : List (Err × Err)
  trace : List Ev

/-- One iteration of the unwind loop of `__aenter__` for the participant
at index `ip.1`: `athrow(current_error)`, compute the new `error`
(note that a clean stop with a falsy value leaves `error` unassigned),
then chain and promote it when it differs from `current_error`.
`exitErrAenter` is the value the local `error` holds after the
try/except of one iteration (a clean stop with a falsy value leaves
`error` unassigned, hence the `errorV` argument). -/
def exitErrAenter (errorV : Err) (i : Nat) (out : ExitOut) : Err :=
  match out with
  | ExitOut.stops true => Err.nonNoneReturn i
  | ExitOut.stops false => errorV
  | ExitOut.raises ex => ex
  | ExitOut.yieldsAgain => Err.notStop i

def aenterUnwindStep (s : UnwState) (ip : Nat × Participant) : UnwState :=
  let tr := s.trace ++ [Ev.exitCall ip.1 (some s.current)]
  let e2 : Err := exitErrAenter s.errorV ip.1 (ip.2.onExit (some s.current))
  if e2 = s.current then { s with errorV := e2, trace := tr }
  else { errorV := e2, current := e2, causes := s.causes ++ [(e2, s.current)],
         trace := tr }

/-- `Context.__aenter__` (`context.py` lines 34-66): enter participants in
order; on the first failure, unwind the already-entered ones in reverse,
injecting the current error, then raise the final current error.  Returns
the call trace, the recorded cause assignments, and the raised error
(`none` when enter succeeds and `self` is returned). -/
def aenter (ps : List Participant) : List Ev × List (Err × Err) × Option Err :=
  match firstFailure 0 ps with
  | none => ((List.range ps.length).map Ev.enterCall, [], none)
  | some (i, e) =>
    let s0 : UnwState :=
      { errorV := e, current := e, causes := [],
        trace := (List.range (i + 1)).map Ev.enterCall }
    let fin := ((withIdx 0 (ps.take i)).reverse).foldl aenterUnwindStep s0
    (fin.trace, fin.causes, some fin.current)

/-- State of the reverse loop of `__aexit__` (`context.py` lines 68-93):
the Python locals `error` and `current_error` (each possibly None), the
recorded cause assignments, and the call trace. -/
structure AexitState where
  errorV : Option Err
  current : Option Err
  causes : List (Err × Err)
  trace : List Ev

/-- One iteration of the reverse loop of `__aexit__` for the participant
at index `ip.1`: `athrow(current_error)` when an error is current, plain
`asend(None)` otherwise; a clean stop clears the current error, a truthy
stop value or a second yield becomes a fresh `RuntimeError`, and a raised
error different from the current one is chained and promoted.
`exitErrAexit` is the value the local `error` holds after the try/except
of one iteration. -/
def exitErrAexit (i : Nat) (out : ExitOut) : Option Err :=
  match out with
  | ExitOut.stops true => some (Err.nonNoneReturn i)
  | ExitOut.stops false => none
  | ExitOut.raises ex => some ex
  | ExitOut.yieldsAgain => some (Err.notStop i)

def aexitStep (s : AexitState) (ip : Nat × Participant) : AexitState :=
  let tr := s.trace ++ [Ev.exitCall ip.1 s.current]
  match exitErrAexit ip.1 (ip.2.onExit s.current), s.current with
  | none, _ => { errorV := none, current := none, causes := s.causes, trace := tr }
  | some e, none => { errorV := some e, current := some e, causes := s.causes, trace := tr }
  | some e, some c =>
    if e = c then { errorV := some e, current := s.current, causes := s.causes, trace := tr }
    else { errorV := some e, current := some e,
           causes := s.causes ++ [(e, c)], trace := tr }

/-- Outcome of `__aexit__`: return without raising (so any incoming
exception keeps propagating), raise an error object, or execute
`raise current_error` with `current_error` None, which in Python raises a
`TypeError`. -/
inductive AexitResult where
  | noRaise : AexitResult
  | raised : Err → AexitResult
  | raisedNone : AexitResult
deriving DecidableEq

/-- Initial state of the `__aexit__` loop: `current_error = error = exc`. -/
def aexitInit (exc : Option Err) : AexitState := ⟨exc, exc, [], []⟩

/-- `Context.__aexit__` (`context.py` lines 68-95): iterate all
participants in reverse, then `raise current_error` exactly when it is not
(by identity) the incoming exception. -/
def aexit (ps : List Participant) (exc : Option Err) :
    List Ev × List (Err × Err) × AexitResult :=
  let fin := ((withIdx 0 ps).reverse).foldl aexitStep (aexitInit exc)
  (fin.trace, fin.causes,
    if fin.current = exc then AexitResult.noRaise
    else
      match fin.current with
      | none => AexitResult.raisedNone
      | some e => AexitResult.raised e)

/-- Index of the participant a call was made to. -/
def evIdx : Ev → Nat
  | Ev.enterCall i => i
  | Ev.exitCall i _ => i

/-- Whether a call is an exit (resume/athrow) call. -/
def isExitEv : Ev → Bool
  | Ev.enterCall _ => false
  | Ev.exitCall _ _ => true

/-- Index of an exit call, `none` for an enter call. -/
def exitIdxOf : Ev → Option Nat
  | Ev.enterCall _ => none
  | Ev.exitCall i _ => some i

/-- Index of an enter call, `none` for an exit call. -/
def enterIdxOf : Ev → Option Nat
  | Ev.enterCall i => some i
  | Ev.exitCall _ _ => none

/-- Well-formedness of a participant with respect to error identity: when
resumed it raises either an application error object or exactly the
injected error object, never one of the composer's own fresh
`RuntimeError` objects. -/
def ExitWf (p : Participant) : Prop :=
  ∀ inj e, p.onExit inj = ExitOut.raises e → (∃ n, e = Err.user n) ∨ inj = some e

/-- A plugin descriptor as read by `App._active_plugins` (`app.py` lines
112-131): the optional `provides` and `requires` declarations and the
optional `context` / `decorator` contributions, each a static,
boot-time-known capability. -/
structure Plugin where
  provides : Option (List String)
  requires : Option (List String)
  hasContext : Bool
  hasDecorator : Bool

/-- A boot event: the activation hook of plugin `i` runs, or the requires
check of plugin `i` runs. -/
inductive BootEv where
  | activate : Nat → BootEv
  | checkRequires : Nat → BootEv
deriving DecidableEq

/-- The set difference `set(plugin.requires) - provided` of `app.py` line
128, as a deduplicated list. -/
def missingOf (provided : List String) (p : Plugin) : List String :=
  match p.requires with
  | none => []
  | some req => req.dedup.filter (fun k => !(provided.contains k))

/-- Truthiness of the joined string `', '.join(missing)` (`app.py` lines
128-129): the join of a set of strings is non-empty exactly when the set
holds at least one non-empty string. -/
def missingTruthy (missing : List String) : Bool :=
  missing.any (fun s => !(s == ""))

/-- The first loop of `App._active_plugins` (lines 116-123): run each
plugin's activation hook in order, collect its contributed contexts and
decorators, and accumulate its `provides` keys.  Returns the events, the
context-contributing plugin indices in order, and the accumulated
plugin-provided keys in order. -/
def collectLoop : Nat → List Plugin → List BootEv × List Nat × List String
  | _, [] => ([], [], [])
  | i, p :: rest =>
    let r := collectLoop (i + 1) rest
    (BootEv.activate i :: r.1,
     (if p.hasContext then [i] else []) ++ r.2.1,
     p.provides.getD [] ++ r.2.2)

/-- The second loop of `App._active_plugins` (lines 124-131): check each
plugin's `requires` in order and raise a `DependencyError` naming the
plugin and the missing keys at the first plugin whose joined missing-key
string is truthy. -/
def checkLoop (provided : List String) :
    Nat → List Plugin → List BootEv × Option (Nat × List String)
  | _, [] => ([], none)
  | i, p :: rest =>
    let miss := missingOf provided p
    if missingTruthy miss then ([BootEv.checkRequires i], some (i, miss))
    else
      let r := checkLoop provided (i + 1) rest
      (BootEv.checkRequires i :: r.1, r.2)

/-- `App._active_plugins` (`app.py` lines 112-131): seed the provided-set
with the namespaced config field keys, run the activation loop, then run
the requires check loop.  Returns the boot events, the provided-set (as a
list with set-membership semantics), and the boot failure, if any, as the
offending plugin index and its missing keys. -/
def activePlugins (configFields : List String) (plugins : List Plugin) :
    List BootEv × List String × Option (Nat × List String) :=
  let col := collectLoop 0 plugins
  let provided := configFields.map (fun k => "config." ++ k) ++ col.2.2
  let chk := checkLoop provided 0 plugins
  (col.1 ++ chk.1, provided, chk.2)

/-- Modelled from the spec: the exception class taxonomy of §7 (the
`error.py` module defining `HrpcError` / `InternalError` and weirb's
`HttpError` is not under src/).  A domain (`HrpcError`) error carries its
payload; `internalFailure` is the generic `InternalError` response body. -/
inductive HrpcKind where
  | domain : Nat → HrpcKind
  | internalFailure : HrpcKind
deriving DecidableEq

/-- Modelled from the spec: the kind of exception escaping the routed
handler call, per the §7 taxonomy — a domain (`HrpcError`) error, a
transport-native (`HttpError`) error, or any other `Exception`. -/
inductive RaisedExc where
  | hrpc : HrpcKind → RaisedExc
  | http : Nat → RaisedExc
  | otherExc : Nat → RaisedExc
deriving DecidableEq

/-- Outcome of the routed-method call inside the try block of
`App._handler`: a response, or a raised exception. -/
inductive HandlerOutcome where
  | ok : Nat → HandlerOutcome
  | raised : RaisedExc → HandlerOutcome
deriving DecidableEq

/-- An HTTP response produced by `App._handler`: the routed method's
response, or `ErrorResponse(ex).to_http()` for an `HrpcError` payload. -/
inductive HttpRes where
  | normal : Nat → HttpRes
  | errorResponseOf : HrpcKind → HttpRes
deriving DecidableEq

/-- `App._handler` (`app.py` lines 144-156): map an `HrpcError` to a
structured error response, re-raise an `HttpError` unmodified, and convert
any other `Exception` to the generic `InternalError` response. -/
def appHandler : HandlerOutcome → Except RaisedExc HttpRes
  | HandlerOutcome.ok r => Except.ok (HttpRes.normal r)
  | HandlerOutcome.raised (RaisedExc.hrpc k) => Except.ok (HttpRes.errorResponseOf k)
  | HandlerOutcome.raised (RaisedExc.http n) => Except.error (RaisedExc.http n)
  | HandlerOutcome.raised (RaisedExc.otherExc _) =>
      Except.ok (HttpRes.errorResponseOf HrpcKind.internalFailure)

/-- A container with empty config, no eager values and no providers. -/
def emptyCtx : Context Nat := ⟨fun _ => none, fun _ => none, fun _ => none⟩

/-- A well-behaved participant: enters by yielding None, and terminates
cleanly (with a None value) however it is resumed. -/
def pCleanStop : Participant := ⟨EnterOut.yields false, fun _ => ExitOut.stops false⟩

/-- A participant violating the protocol on exit: it yields a second time
instead of stopping when resumed. -/
def pYieldAgain : Participant := ⟨EnterOut.yields false, fun _ => ExitOut.yieldsAgain⟩

/-- A participant that lets any injected error propagate and terminates
cleanly when resumed without an error. -/
def pPropagate : Participant :=
  ⟨EnterOut.yields false, fun inj =>
    match inj with
    | some c => ExitOut.raises c
    | none => ExitOut.stops false⟩

/-- A participant whose enter raises the application error object 5. -/
def pEnterRaise : Participant := ⟨EnterOut.raises (Err.user 5), fun _ => ExitOut.stops false⟩

/-- A participant that raises the fresh application error object 9
whenever it is resumed. -/
def pRaise9 : Participant := ⟨EnterOut.yields false, fun _ => ExitOut.raises (Err.user 9)⟩

/-- A participant that raises the fresh application error object 3
whenever it is resumed. -/
def pRaise3 : Participant := ⟨EnterOut.yields false, fun _ => ExitOut.raises (Err.user 3)⟩

/-- A plugin whose only requirement is the empty-string key. -/
def pluginEmptyReq : Plugin := ⟨none, some [""], false, false⟩

/-! ## Lemmas about the dependency container -/

theorem upd_self {V : Type} (m : String → Option V) (k : String) (v : V) :
    upd m k v k = some v := by
  simp [upd]

theorem upd_ne {V : Type} (m : String → Option V) (k : String) (v : V)
    (k2 : String) (h : k2 ≠ k) : upd m k v k2 = m k2 := by
  simp [upd, h]

theorem require_container_some {V : Type} (c : Context V) (key : String) (v : V)
    (hk : pyStartsWith key "config." = false) (h : c.container key = some v) :
    c.require key = ⟨ReqOut.ok v, c, false⟩ := by
  simp [Context.require, hk, h]

theorem stepOp_container_mono {V : Type} (c : Context V) (op : COp V) (key : String)
    (h : (c.container key).isSome = true) :
    (((stepOp c op).1).container key).isSome = true := by
  cases op with
  | provide k v lz =>
    simp only [stepOp, Context.provide]
    by_cases hlz : lz = true
    · simp [hlz, h]
    · simp only [Bool.not_eq_true] at hlz
      by_cases hkey : key = k
      · simp [hlz, hkey, upd_self]
      · simp [hlz, upd_ne _ _ _ _ hkey, h]
  | require k =>
    simp only [stepOp, Context.require]
    split
    · split <;> exact h
    · split
      · exact h
      · split
        · exact h
        · by_cases hkey : key = k
          · simp [hkey, upd_self]
          · simp [upd_ne _ _ _ _ hkey, h]

theorem stepOp_invoked_container {V : Type} (c : Context V) (op : COp V) (key : String)
    (h : (stepOp c op).2 = some key) :
    (((stepOp c op).1).container key).isSome = true := by
  cases op with
  | provide k v lz => simp [stepOp] at h
  | require k =>
    simp only [stepOp] at h ⊢
    by_cases hinv : (c.require k).invoked = true
    · simp only [hinv, if_true] at h
      cases h
      revert hinv
      simp only [Context.require]
      split
      · split <;> intro hinv <;> simp at hinv
      · split
        · intro hinv; simp at hinv
        · split
          · intro hinv; simp at hinv
          · intro _; simp [upd_self]
    · simp only [Bool.not_eq_true] at hinv
      simp [hinv] at h

theorem stepOp_no_invoke {V : Type} (c : Context V) (op : COp V) (key : String)
    (h : (c.container key).isSome = true) : (stepOp c op).2 ≠ some key := by
  cases op with
  | provide k v lz => simp [stepOp]
  | require k =>
    simp only [stepOp]
    by_cases hinv : (c.require k).invoked = true
    · simp only [hinv, if_true]
      intro heq
      cases heq
      revert hinv
      simp only [Context.require]
      split
      · split <;> intro hinv <;> simp at hinv
      · split
        · intro hinv; simp at hinv
        · rename_i hcont
          rw [hcont] at h
          simp at h
    · simp only [Bool.not_eq_true] at hinv
      simp [hinv]

theorem c4_count_aux {V : Type} (ops : List (COp V)) :
    ∀ (c : Context V) (key : String),
      ((c.container key).isSome = true → countOcc key (runOps c ops).2 = 0)
      ∧ countOcc key (runOps c ops).2 ≤ 1 := by
  induction ops with
  | nil =>
    intro c key
    exact ⟨fun _ => rfl, by simp [runOps, countOcc]⟩
  | cons op rest ih =>
    intro c key
    have hmono := stepOp_container_mono c op key
    have hinvc := stepOp_invoked_container c op key
    have hni := stepOp_no_invoke c op key
    simp only [runOps]
    cases hsnd : (stepOp c op).2 with
    | none =>
      simp only [hsnd, Option.toList, List.nil_append]
      exact ⟨fun h => (ih _ key).1 (hmono h), (ih _ key).2⟩
    | some k2 =>
      by_cases hk : k2 = key
      · subst hk
        have h0 : countOcc k2 (runOps (stepOp c op).1 rest).2 = 0 :=
          (ih _ k2).1 (hinvc hsnd)
        constructor
        · intro h
          exact absurd hsnd (hni h)
        · simp [hsnd, countOcc, h0]
      · constructor
        · intro h
          have h0 := (ih _ key).1 (hmono h)
          simp [hsnd, countOcc, hk, h0]
        · have h1 := (ih (stepOp c op).1 key).2
          simpa [hsnd, countOcc, hk] using h1

/-! ## Claims C2, C3, C4 -/

/-- C2 (counterexample): for a key in the config namespace, `provide`
followed by `require` does not return the provided value — `require`
consults the config snapshot first and raises `DependencyError` when the
field is absent, so the claim fails at key `config.x`, value `0`, on a
container with an empty config snapshot. -/
theorem c2_counterexample :
    ((emptyCtx.provide "config.x" 0 false).require "config.x").out
      = ReqOut.depErr "config.x"
    ∧ ReqOut.depErr "config.x" ≠ ReqOut.ok (0 : Nat) := by
  constructor
  · rfl
  · decide

/-- C2 (amended): for every key that does not start with the config
namespace, `provide(key, value)` (eager) followed by `require(key)` on the
same container returns the exact value provided; keys in the config
namespace are answered from the immutable config snapshot instead,
ignoring `provide`. -/
theorem c2_amended (V : Type) (c : Context V) (key : String) (v : V)
    (hk : pyStartsWith key "config." = false) :
    ((c.provide key v false).require key).out = ReqOut.ok v := by
  have hc : (c.provide key v false).container key = some v := by
    simp [Context.provide, upd_self]
  rw [require_container_some (c.provide key v false) key v hk hc]

/-- C2 witness: the amended theorem at the container with everything
empty, key `db`, value `5`. -/
theorem c2_witness : ((emptyCtx.provide "db" 5 false).require "db").out = ReqOut.ok 5 :=
  c2_amended Nat emptyCtx "db" 5 (by decide)

/-- C3 (counterexample): last write does not always win when mixing eager
and lazy registration — after `provide("k", 1)` (eager) then
`provide("k", 2, lazy=True)`, `require("k")` returns the earlier eager
value `1`, not the most recent provide's value `2`, because `require`
consults the eager map before the provider map. -/
theorem c3_counterexample :
    (((emptyCtx.provide "k" 1 false).provide "k" 2 true).require "k").out
      = ReqOut.ok 1
    ∧ ReqOut.ok (1 : Nat) ≠ ReqOut.ok 2 := by
  constructor
  · rfl
  · decide

/-- C3 (amended): re-providing a key overwrites the prior registration in
the map it targets, and `require` reflects the most recent provide except
in one case: an eager provide is always visible; a lazy provide is visible
when the key is not in the eager/resolved map; but a lazy provide for a
key already present in the eager/resolved map (eagerly provided or
memoized earlier) is shadowed, and `require` keeps returning the stored
eager value. -/
theorem c3_amended :
    (∀ (V : Type) (c : Context V) (key : String) (v : V),
      pyStartsWith key "config." = false →
      ((c.provide key v false).require key).out = ReqOut.ok v)
    ∧ (∀ (V : Type) (c : Context V) (key : String) (v : V),
      pyStartsWith key "config." = false → c.container key = none →
      ((c.provide key v true).require key).out = ReqOut.ok v)
    ∧ (∀ (V : Type) (c : Context V) (key : String) (v w : V),
      pyStartsWith key "config." = false → c.container key = some w →
      ((c.provide key v true).require key).out = ReqOut.ok w) := by
  refine ⟨fun V c key v hk => c2_amended V c key v hk, ?_, ?_⟩
  · intro V c key v hk hc
    simp [Context.provide, Context.require, hk, hc, upd_self]
  · intro V c key v w hk hc
    have h2 : (c.provide key v true).container key = some w := by
      simp [Context.provide, hc]
    rw [require_container_some (c.provide key v true) key w hk h2]

/-- C3 witness: the shadowing clause of the amended theorem at a concrete
container: eager `1`, then lazy `2`, `require` returns `1`. -/
theorem c3_witness :
    (((emptyCtx.provide "k" 1 false).provide "k" 2 true).require "k").out
      = ReqOut.ok 1 :=
  c3_amended.2.2 Nat (emptyCtx.provide "k" 1 false) "k" 2 1 (by decide) (by rfl)

/-- C4: across any sequence of container operations, the lazy constructor
registered for a key is invoked at most once (the invocation log holds the
key at most once); and once a key is in the eager/resolved map with value
`v`, every `require` of that key returns that memoized value without
invoking any provider and without changing the container. -/
theorem c4_lazy_memoized (V : Type) (c : Context V) (ops : List (COp V))
    (key : String) :
    countOcc key (runOps c ops).2 ≤ 1
    ∧ (∀ v, pyStartsWith key "config." = false → c.container key = some v →
        c.require key = ⟨ReqOut.ok v, c, false⟩) := by
  exact ⟨(c4_count_aux ops c key).2,
    fun v hk hc => require_container_some c key v hk hc⟩

/-- C4 witness: a lazily provided key required twice produces at most one
invocation. -/
theorem c4_witness :
    countOcc "k" (runOps (emptyCtx.provide "k" 7 true)
      [COp.require "k", COp.require "k"]).2 ≤ 1 :=
  (c4_lazy_memoized Nat (emptyCtx.provide "k" 7 true)
    [COp.require "k", COp.require "k"] "k").1

/-! ## Lemmas about the scope composer -/

theorem withIdx_map_fst {α : Type} : ∀ (i : Nat) (l : List α),
    (withIdx i l).map Prod.fst = List.range' i l.length := by
  intro i l
  induction l generalizing i with
  | nil => rfl
  | cons a rest ih =>
    show i :: (withIdx (i + 1) rest).map Prod.fst = List.range' i (rest.length + 1)
    rw [List.range'_succ, ih]

theorem withIdx_append {α : Type} : ∀ (a b : List α) (i : Nat),
    withIdx i (a ++ b) = withIdx i a ++ withIdx (i + a.length) b := by
  intro a
  induction a with
  | nil => intro b i; simp [withIdx]
  | cons x rest ih =>
    intro b i
    show (i, x) :: withIdx (i + 1) (rest ++ b) = _
    rw [ih]
    have harith : i + 1 + rest.length = i + (rest.length + 1) := by omega
    simp [withIdx, harith]

theorem aexitStep_trace (s : AexitState) (ip : Nat × Participant) :
    (aexitStep s ip).trace = s.trace ++ [Ev.exitCall ip.1 s.current] := by
  unfold aexitStep
  cases exitErrAexit ip.1 (ip.2.onExit s.current) with
  | none => rfl
  | some e =>
    cases s.current with
    | none => rfl
    | some c =>
      by_cases he : e = c <;> simp [he]

theorem foldl_aexitStep_map_evIdx : ∀ (l : List (Nat × Participant)) (s : AexitState),
    ((l.foldl aexitStep s).trace).map evIdx = s.trace.map evIdx ++ l.map Prod.fst := by
  intro l
  induction l with
  | nil => intro s; simp
  | cons x rest ih =>
    intro s
    rw [List.foldl_cons, ih, aexitStep_trace]
    simp [evIdx]

theorem foldl_aexitStep_isExit : ∀ (l : List (Nat × Participant)) (s : AexitState),
    (∀ ev ∈ s.trace, isExitEv ev = true) →
    ∀ ev ∈ (l.foldl aexitStep s).trace, isExitEv ev = true := by
  intro l
  induction l with
  | nil => intro s h; exact h
  | cons x rest ih =>
    intro s h
    rw [List.foldl_cons]
    refine ih _ ?_
    rw [aexitStep_trace]
    intro ev hev
    rcases List.mem_append.mp hev with h1 | h2
    · exact h ev h1
    · rcases List.mem_singleton.mp h2 with rfl
      rfl

theorem aenterUnwindStep_trace (s : UnwState) (ip : Nat × Participant) :
    (aenterUnwindStep s ip).trace = s.trace ++ [Ev.exitCall ip.1 (some s.current)] := by
  unfold aenterUnwindStep
  by_cases he : exitErrAenter s.errorV ip.1 (ip.2.onExit (some s.current)) = s.current <;>
    simp [he]

theorem filterMap_enter_of_enterCalls : ∀ (l : List Nat),
    ((l.map Ev.enterCall).filterMap enterIdxOf) = l := by
  intro l
  induction l with
  | nil => rfl
  | cons x rest ih => simp [enterIdxOf, ih]

theorem foldl_unw_filterMap_enter : ∀ (l : List (Nat × Participant)) (s : UnwState),
    ((l.foldl aenterUnwindStep s).trace).filterMap enterIdxOf
      = s.trace.filterMap enterIdxOf := by
  intro l
  induction l with
  | nil => intro s; rfl
  | cons x rest ih =>
    intro s
    rw [List.foldl_cons, ih, aenterUnwindStep_trace]
    simp [enterIdxOf]

theorem foldl_unw_filterMap_exit : ∀ (l : List (Nat × Participant)) (s : UnwState),
    ((l.foldl aenterUnwindStep s).trace).filterMap exitIdxOf
      = s.trace.filterMap exitIdxOf ++ l.map Prod.fst := by
  intro l
  induction l with
  | nil => intro s; simp
  | cons x rest ih =>
    intro s
    rw [List.foldl_cons, ih, aenterUnwindStep_trace]
    simp [exitIdxOf]

theorem foldl_unw_inj_some : ∀ (l : List (Nat × Participant)) (s : UnwState),
    (∀ j inj, Ev.exitCall j inj ∈ s.trace → inj.isSome = true) →
    ∀ j inj, Ev.exitCall j inj ∈ (l.foldl aenterUnwindStep s).trace → inj.isSome = true := by
  intro l
  induction l with
  | nil => intro s h; exact h
  | cons x rest ih =>
    intro s h
    rw [List.foldl_cons]
    refine ih _ ?_
    rw [aenterUnwindStep_trace]
    intro j inj hmem
    rcases List.mem_append.mp hmem with h1 | h2
    · exact h j inj h1
    · cases List.mem_singleton.mp h2
      rfl

/-! ## Claim C1 -/

/-- C1: the exit pass (`__aexit__`) resumes every participant exactly once,
in the exact reverse of the activation order, for every incoming handler
outcome (success `exc = none` and failure `exc = some e` alike); and the
enter pass (`__aenter__`) visits participants strictly in activation
order: the enter calls in its trace are exactly `0, 1, ..., m-1` for some
`m`. -/
theorem c1_order (ps : List Participant) (exc : Option Err) :
    ((aexit ps exc).1.map evIdx = (List.range ps.length).reverse
      ∧ ∀ ev ∈ (aexit ps exc).1, isExitEv ev = true)
    ∧ ∃ m, (aenter ps).1.filterMap enterIdxOf = List.range m := by
  refine ⟨⟨?_, ?_⟩, ?_⟩
  · show (((withIdx 0 ps).reverse.foldl aexitStep (aexitInit exc)).trace).map evIdx = _
    rw [foldl_aexitStep_map_evIdx]
    rw [List.map_reverse, withIdx_map_fst, ← List.range_eq_range']
    simp [aexitInit]
  · show ∀ ev ∈ ((withIdx 0 ps).reverse.foldl aexitStep (aexitInit exc)).trace, _
    exact foldl_aexitStep_isExit _ _ (by intro ev hev; simp [aexitInit] at hev)
  · unfold aenter
    cases hff : firstFailure 0 ps with
    | none =>
      exact ⟨ps.length, filterMap_enter_of_enterCalls _⟩
    | some ie =>
      refine ⟨ie.1 + 1, ?_⟩
      show (((withIdx 0 (ps.take ie.1)).reverse.foldl aenterUnwindStep _).trace).filterMap enterIdxOf = _
      rw [foldl_unw_filterMap_enter]
      exact filterMap_enter_of_enterCalls _

/-- C1 witness: the theorem applied to a concrete two-participant list. -/
theorem c1_order_witness :
    ((aexit [pCleanStop, pRaise9] none).1.map evIdx = (List.range 2).reverse
      ∧ ∀ ev ∈ (aexit [pCleanStop, pRaise9] none).1, isExitEv ev = true)
    ∧ ∃ m, (aenter [pCleanStop, pRaise9]).1.filterMap enterIdxOf = List.range m :=
  c1_order [pCleanStop, pRaise9] none

theorem getLastD_concat_eq (l : List Err) (a d : Err) :
    (l ++ [a]).getLastD d = a := by
  simp [List.getLastD_concat]

theorem dropLast_append_getLastD : ∀ (l : List Err) (x : Err),
    (x :: l).dropLast ++ [l.getLastD x] = x :: l := by
  intro l
  induction l with
  | nil => intro x; simp
  | cons a rest ih =>
    intro x
    rw [List.dropLast_cons₂, List.getLastD_cons, List.cons_append, ih a]

theorem unwStep_chain (e0 : Err) (s : UnwState) (ip : Nat × Participant)
    (h2 : s.causes.map Prod.snd = (e0 :: s.causes.map Prod.fst).dropLast)
    (h3 : s.current = (s.causes.map Prod.fst).getLastD e0) :
    (aenterUnwindStep s ip).errorV = (aenterUnwindStep s ip).current
    ∧ (aenterUnwindStep s ip).causes.map Prod.snd
        = (e0 :: (aenterUnwindStep s ip).causes.map Prod.fst).dropLast
    ∧ (aenterUnwindStep s ip).current
        = ((aenterUnwindStep s ip).causes.map Prod.fst).getLastD e0 := by
  unfold aenterUnwindStep
  by_cases he : exitErrAenter s.errorV ip.1 (ip.2.onExit (some s.current)) = s.current
  · rw [if_pos he]
    exact ⟨he, h2, h3⟩
  · rw [if_neg he]
    refine ⟨rfl, ?_, ?_⟩
    · show (s.causes ++ [(_, s.current)]).map Prod.snd
        = (e0 :: (s.causes ++ [(_, s.current)]).map Prod.fst).dropLast
      rw [List.map_append, List.map_append, h2]
      simp only [List.map_cons, List.map_nil]
      rw [h3, dropLast_append_getLastD, ← List.cons_append, List.dropLast_concat]
    · show _ = ((s.causes ++ [(_, s.current)]).map Prod.fst).getLastD e0
      rw [List.map_append]
      simp only [List.map_cons, List.map_nil]
      rw [getLastD_concat_eq]

theorem foldl_unw_chain (e0 : Err) : ∀ (l : List (Nat × Participant)) (s : UnwState),
    s.causes.map Prod.snd = (e0 :: s.causes.map Prod.fst).dropLast →
    s.current = (s.causes.map Prod.fst).getLastD e0 →
    (l.foldl aenterUnwindStep s).causes.map Prod.snd
      = (e0 :: (l.foldl aenterUnwindStep s).causes.map Prod.fst).dropLast
    ∧ (l.foldl aenterUnwindStep s).current
      = ((l.foldl aenterUnwindStep s).causes.map Prod.fst).getLastD e0 := by
  intro l
  induction l with
  | nil => intro s h2 h3; exact ⟨h2, h3⟩
  | cons x rest ih =>
    intro s h2 h3
    rw [List.foldl_cons]
    have hstep := unwStep_chain e0 s x h2 h3
    exact ih _ hstep.2.1 hstep.2.2

theorem ff_append : ∀ (pre : List Participant) (k : Nat) (rest : List Participant),
    (∀ ip ∈ withIdx k pre, enterOutError ip.1 ip.2 = none) →
    firstFailure k (pre ++ rest) = firstFailure (k + pre.length) rest := by
  intro pre
  induction pre with
  | nil => intro k rest _; simp [firstFailure]
  | cons p pre2 ih =>
    intro k rest h
    have hp : enterOutError k p = none := h (k, p) (by simp [withIdx])
    show (match enterOutError k p with
          | some e => some (k, e)
          | none => firstFailure (k + 1) (pre2 ++ rest)) = _
    rw [hp, ih (k + 1) rest (fun ip hip => h ip (by simp [withIdx, hip]))]
    have : k + 1 + pre2.length = k + (pre2.length + 1) := by omega
    simp [this]

theorem filterMap_exit_of_enterCalls : ∀ (l : List Nat),
    ((l.map Ev.enterCall).filterMap exitIdxOf) = [] := by
  intro l
  induction l with
  | nil => rfl
  | cons x rest ih => simp [exitIdxOf, ih]

/-! ## Claim C5 -/

/-- C5: if every participant before index `pre.length` enters cleanly and
the participant at that index fails its enter with error `e`, then the
enter pass visits exactly participants `0 .. pre.length` in order, exactly
the participants `0 .. pre.length - 1` receive an exit call, in reverse
order, each with an injected (athrow) error, the participants from the
failure point on receive no exit call, and the recorded cause assignments
form a chain rooted at `e`: the first superseding error's cause is `e`,
each later superseding error's cause is the previous one, and the raised
error is the last element of that chain. -/
theorem c5_enter_failure_unwind (pre post : List Participant) (pv : Participant)
    (e : Err)
    (hpre : ∀ ip ∈ withIdx 0 pre, enterOutError ip.1 ip.2 = none)
    (hv : enterOutError pre.length pv = some e)
    (hwf : ∀ p ∈ pre, ExitWf p) :
    (aenter (pre ++ pv :: post)).1.filterMap enterIdxOf
      = List.range (pre.length + 1)
    ∧ (aenter (pre ++ pv :: post)).1.filterMap exitIdxOf
      = (List.range pre.length).reverse
    ∧ (∀ j inj, Ev.exitCall j inj ∈ (aenter (pre ++ pv :: post)).1 →
        inj.isSome = true)
    ∧ (aenter (pre ++ pv :: post)).2.1.map Prod.snd
      = (e :: (aenter (pre ++ pv :: post)).2.1.map Prod.fst).dropLast
    ∧ (aenter (pre ++ pv :: post)).2.2
      = some (((aenter (pre ++ pv :: post)).2.1.map Prod.fst).getLastD e) := by
  have hff : firstFailure 0 (pre ++ pv :: post) = some (pre.length, e) := by
    rw [ff_append pre 0 (pv :: post) hpre]
    simp [firstFailure, hv]
  have htake : (pre ++ pv :: post).take pre.length = pre := List.take_left pre (pv :: post)
  have haen : aenter (pre ++ pv :: post)
      = (((withIdx 0 pre).reverse.foldl aenterUnwindStep
            { errorV := e, current := e, causes := [],
              trace := (List.range (pre.length + 1)).map Ev.enterCall }).trace,
         ((withIdx 0 pre).reverse.foldl aenterUnwindStep
            { errorV := e, current := e, causes := [],
              trace := (List.range (pre.length + 1)).map Ev.enterCall }).causes,
         some (((withIdx 0 pre).reverse.foldl aenterUnwindStep
            { errorV := e, current := e, causes := [],
              trace := (List.range (pre.length + 1)).map Ev.enterCall }).current)) := by
    unfold aenter
    rw [hff]
    dsimp only
    rw [htake]
  rw [haen]
  have hch := foldl_unw_chain e ((withIdx 0 pre).reverse)
      { errorV := e, current := e, causes := [],
        trace := (List.range (pre.length + 1)).map Ev.enterCall }
      (by rfl) (by rfl)
  refine ⟨?_, ?_, ?_, hch.1, congrArg some hch.2⟩
  · rw [foldl_unw_filterMap_enter]
    exact filterMap_enter_of_enterCalls _
  · rw [foldl_unw_filterMap_exit]
    show ((List.range (pre.length + 1)).map Ev.enterCall).filterMap exitIdxOf
        ++ ((withIdx 0 pre).reverse).map Prod.fst = _
    rw [filterMap_exit_of_enterCalls, List.nil_append, List.map_reverse,
      withIdx_map_fst, ← List.range_eq_range']
  · refine foldl_unw_inj_some _ _ ?_
    intro j inj hmem
    simp at hmem

/-- C5 witness: the theorem at the concrete list `[pCleanStop]` followed by
a participant whose enter raises the application error 5. -/
theorem c5_witness :
    (aenter [pCleanStop, pEnterRaise]).1.filterMap enterIdxOf = List.range 2
    ∧ (aenter [pCleanStop, pEnterRaise]).1.filterMap exitIdxOf
      = (List.range 1).reverse
    ∧ (∀ j inj, Ev.exitCall j inj ∈ (aenter [pCleanStop, pEnterRaise]).1 →
        inj.isSome = true)
    ∧ (aenter [pCleanStop, pEnterRaise]).2.1.map Prod.snd
      = (Err.user 5 :: (aenter [pCleanStop, pEnterRaise]).2.1.map Prod.fst).dropLast
    ∧ (aenter [pCleanStop, pEnterRaise]).2.2
      = some (((aenter [pCleanStop, pEnterRaise]).2.1.map Prod.fst).getLastD
          (Err.user 5)) :=
  c5_enter_failure_unwind [pCleanStop] [] pEnterRaise (Err.user 5)
    (by
      intro ip hip
      simp only [withIdx] at hip
      rcases List.mem_singleton.mp hip with rfl
      rfl)
    (by rfl)
    (by
      intro p hp
      rcases List.mem_singleton.mp hp with rfl
      intro inj e2 h
      simp [pCleanStop] at h)

/-! ## Step evaluation lemmas for the exit passes -/

theorem aexitStep_raises_new (s : AexitState) (ip : Nat × Participant) (c e : Err)
    (hc : s.current = some c) (h : ip.2.onExit (some c) = ExitOut.raises e)
    (hne : e ≠ c) :
    aexitStep s ip = ⟨some e, some e, s.causes ++ [(e, c)],
      s.trace ++ [Ev.exitCall ip.1 (some c)]⟩ := by
  simp [aexitStep, exitErrAexit, hc, h, hne]

theorem aexitStep_raises_same (s : AexitState) (ip : Nat × Participant) (c : Err)
    (hc : s.current = some c) (h : ip.2.onExit (some c) = ExitOut.raises c) :
    aexitStep s ip = ⟨some c, some c, s.causes,
      s.trace ++ [Ev.exitCall ip.1 (some c)]⟩ := by
  simp [aexitStep, exitErrAexit, hc, h]

theorem aexitStep_stops_false (s : AexitState) (ip : Nat × Participant)
    (h : ip.2.onExit s.current = ExitOut.stops false) :
    aexitStep s ip = ⟨none, none, s.causes,
      s.trace ++ [Ev.exitCall ip.1 s.current]⟩ := by
  simp [aexitStep, exitErrAexit, h]

theorem aexitStep_stops_true (s : AexitState) (ip : Nat × Participant) (c : Err)
    (hc : s.current = some c) (h : ip.2.onExit (some c) = ExitOut.stops true)
    (hne : c ≠ Err.nonNoneReturn ip.1) :
    aexitStep s ip = ⟨some (Err.nonNoneReturn ip.1), some (Err.nonNoneReturn ip.1),
      s.causes ++ [(Err.nonNoneReturn ip.1, c)],
      s.trace ++ [Ev.exitCall ip.1 (some c)]⟩ := by
  simp [aexitStep, exitErrAexit, hc, h, hne.symm]

theorem aexitStep_yieldsAgain_none (s : AexitState) (ip : Nat × Participant)
    (hc : s.current = none) (h : ip.2.onExit none = ExitOut.yieldsAgain) :
    aexitStep s ip = ⟨some (Err.notStop ip.1), some (Err.notStop ip.1), s.causes,
      s.trace ++ [Ev.exitCall ip.1 none]⟩ := by
  simp [aexitStep, exitErrAexit, hc, h]

theorem unwStep_raises_new (u : UnwState) (i : Nat) (p : Participant) (e : Err)
    (h : p.onExit (some u.current) = ExitOut.raises e) (hne : e ≠ u.current) :
    aenterUnwindStep u (i, p)
      = ⟨e, e, u.causes ++ [(e, u.current)],
          u.trace ++ [Ev.exitCall i (some u.current)]⟩ := by
  simp [aenterUnwindStep, exitErrAenter, h, hne]

theorem unwStep_stops_true (u : UnwState) (i : Nat) (p : Participant)
    (h : p.onExit (some u.current) = ExitOut.stops true)
    (hne : u.current ≠ Err.nonNoneReturn i) :
    aenterUnwindStep u (i, p)
      = ⟨Err.nonNoneReturn i, Err.nonNoneReturn i,
          u.causes ++ [(Err.nonNoneReturn i, u.current)],
          u.trace ++ [Ev.exitCall i (some u.current)]⟩ := by
  simp [aenterUnwindStep, exitErrAenter, h, hne.symm]

theorem unwStep_yieldsAgain (u : UnwState) (i : Nat) (p : Participant)
    (h : p.onExit (some u.current) = ExitOut.yieldsAgain)
    (hne : u.current ≠ Err.notStop i) :
    aenterUnwindStep u (i, p)
      = ⟨Err.notStop i, Err.notStop i,
          u.causes ++ [(Err.notStop i, u.current)],
          u.trace ++ [Ev.exitCall i (some u.current)]⟩ := by
  simp [aenterUnwindStep, exitErrAenter, h, hne.symm]

/-! ## Claim C6 -/

/-- C6: during teardown, when a participant's exit raises an error object
different (by identity) from the injected current error, the new error
becomes the current error and the superseded error is recorded as its
cause — in one step of the `__aexit__` reverse loop, in one step of the
`__aenter__` unwind loop, and end-to-end: if this happens at the last
participant of the exit pass and the new error is not the incoming
exception object, the new error is the raised lifecycle error and the
cause assignment is recorded. -/
theorem c6_supersede_and_chain :
    (∀ (s : AexitState) (i : Nat) (p : Participant) (c e : Err),
      s.current = some c → p.onExit (some c) = ExitOut.raises e → e ≠ c →
      (aexitStep s (i, p)).current = some e
      ∧ (aexitStep s (i, p)).causes = s.causes ++ [(e, c)])
    ∧ (∀ (u : UnwState) (i : Nat) (p : Participant) (e : Err),
      p.onExit (some u.current) = ExitOut.raises e → e ≠ u.current →
      (aenterUnwindStep u (i, p)).current = e
      ∧ (aenterUnwindStep u (i, p)).causes = u.causes ++ [(e, u.current)])
    ∧ (∀ (rest : List Participant) (pk : Participant) (exc : Option Err) (c e : Err),
      (((withIdx 1 rest).reverse).foldl aexitStep (aexitInit exc)).current = some c →
      pk.onExit (some c) = ExitOut.raises e → e ≠ c → some e ≠ exc →
      (aexit (pk :: rest) exc).2.2 = AexitResult.raised e
      ∧ (e, c) ∈ (aexit (pk :: rest) exc).2.1) := by
  refine ⟨?_, ?_, ?_⟩
  · intro s i p c e hc h hne
    rw [aexitStep_raises_new s (i, p) c e hc h hne]
    exact ⟨rfl, rfl⟩
  · intro u i p e h hne
    rw [unwStep_raises_new u i p e h hne]
    exact ⟨rfl, rfl⟩
  · intro rest pk exc c e h1 h2 h3 h4
    have hrev : (withIdx 0 (pk :: rest)).reverse
        = (withIdx 1 rest).reverse ++ [(0, pk)] := by
      show ((0, pk) :: withIdx 1 rest).reverse = _
      rw [List.reverse_cons]
    have hstep := aexitStep_raises_new
      (((withIdx 1 rest).reverse).foldl aexitStep (aexitInit exc)) (0, pk) c e h1 h2 h3
    unfold aexit
    rw [hrev, List.foldl_append, List.foldl_cons, List.foldl_nil, hstep]
    dsimp only
    constructor
    · rw [if_neg h4]
    · exact List.mem_append.mpr (Or.inr (List.mem_singleton.mpr rfl))

/-- C6 witness: with incoming handler error `user 0`, participant 1 raises
the new error `user 9` (superseding `user 0`), then participant 0 raises
`user 3` against injected `user 9`; the lifecycle error is `user 3` and
the cause assignment `(user 3, user 9)` is recorded. -/
theorem c6_witness :
    (aexit [pRaise3, pRaise9] (some (Err.user 0))).2.2
      = AexitResult.raised (Err.user 3)
    ∧ (Err.user 3, Err.user 9) ∈ (aexit [pRaise3, pRaise9] (some (Err.user 0))).2.1 :=
  c6_supersede_and_chain.2.2 [pRaise9] pRaise3 (some (Err.user 0))
    (Err.user 9) (Err.user 3) rfl rfl (by decide) (by decide)

/-! ## Claim C7 -/

/-- C7 (counterexample): a protocol violation can be silently absorbed.
With no incoming handler error, participant 1 violates the protocol by
yielding again when resumed; the composer converts this to the internal
defect error `notStop 1` and injects it into participant 0, which catches
it and terminates cleanly — clearing the current error — so `__aexit__`
raises nothing and records no cause: the violation is absorbed without
being surfaced. -/
theorem c7_counterexample :
    pYieldAgain.onExit none = ExitOut.yieldsAgain
    ∧ aexit [pCleanStop, pYieldAgain] none
      = ([Ev.exitCall 1 none, Ev.exitCall 0 (some (Err.notStop 1))], [],
         AexitResult.noRaise) :=
  ⟨rfl, rfl⟩

/-- C7 (amended): every protocol violation is detected at the point it
occurs and converted into a distinct internal-defect `RuntimeError` that
becomes the current error — enter without suspending, yielding a non-None
value during enter, not stopping after being resumed during exit, and
swallowing an injected error while returning a non-empty result — but
during the exit pass a later-unwound participant that catches the current
error and terminates cleanly clears it, so a violation is not always
reported to the caller. -/
theorem c7_violations_detected :
    (∀ (i : Nat) (p : Participant), p.onEnter = EnterOut.stops →
      enterOutError i p = some (Err.notYield i))
    ∧ (∀ (i : Nat) (p : Participant), p.onEnter = EnterOut.yields true →
      enterOutError i p = some (Err.nonNoneYield i))
    ∧ (∀ (s : AexitState) (i : Nat) (p : Participant), s.current = none →
      p.onExit none = ExitOut.yieldsAgain →
      (aexitStep s (i, p)).current = some (Err.notStop i))
    ∧ (∀ (s : AexitState) (i : Nat) (p : Participant) (c : Err),
      s.current = some c → p.onExit (some c) = ExitOut.stops true →
      c ≠ Err.nonNoneReturn i →
      (aexitStep s (i, p)).current = some (Err.nonNoneReturn i)
      ∧ (Err.nonNoneReturn i, c) ∈ (aexitStep s (i, p)).causes)
    ∧ (∀ (u : UnwState) (i : Nat) (p : Participant),
      p.onExit (some u.current) = ExitOut.stops true →
      u.current ≠ Err.nonNoneReturn i →
      (aenterUnwindStep u (i, p)).current = Err.nonNoneReturn i)
    ∧ (∀ (u : UnwState) (i : Nat) (p : Participant),
      p.onExit (some u.current) = ExitOut.yieldsAgain →
      u.current ≠ Err.notStop i →
      (aenterUnwindStep u (i, p)).current = Err.notStop i) := by
  refine ⟨?_, ?_, ?_, ?_, ?_, ?_⟩
  · intro i p h; simp [enterOutError, h]
  · intro i p h; simp [enterOutError, h]
  · intro s i p hc h
    rw [aexitStep_yieldsAgain_none s (i, p) hc h]
  · intro s i p c hc h hne
    rw [aexitStep_stops_true s (i, p) c hc h hne]
    exact ⟨rfl, List.mem_append.mpr (Or.inr (List.mem_singleton.mpr rfl))⟩
  · intro u i p h hne
    rw [unwStep_stops_true u i p h hne]
  · intro u i p h hne
    rw [unwStep_yieldsAgain u i p h hne]

/-- C7 witness: the not-stopping-after-resume clause at a concrete state:
resuming `pYieldAgain` with no current error makes the defect error
`notStop 1` current. -/
theorem c7_witness :
    (aexitStep (aexitInit none) (1, pYieldAgain)).current = some (Err.notStop 1) :=
  c7_violations_detected.2.2.1 (aexitInit none) 1 pYieldAgain rfl rfl

/-! ## Claim C10 -/

theorem aexit_phase_prop (e0 : Err) : ∀ (post : List Participant) (i : Nat)
    (s : AexitState),
    s.current = some e0 →
    (∀ p ∈ post, p.onExit (some e0) = ExitOut.raises e0) →
    ((withIdx i post).reverse.foldl aexitStep s).current = some e0
    ∧ ((withIdx i post).reverse.foldl aexitStep s).causes = s.causes
    ∧ ((withIdx i post).reverse.foldl aexitStep s).trace
      = s.trace ++ ((withIdx i post).reverse).map
          (fun ip => Ev.exitCall ip.1 (some e0)) := by
  intro post
  induction post with
  | nil =>
    intro i s hc _
    exact ⟨hc, rfl, by simp [withIdx]⟩
  | cons p rest ih =>
    intro i s hc h
    have hrev : (withIdx i (p :: rest)).reverse
        = (withIdx (i + 1) rest).reverse ++ [(i, p)] := by
      show ((i, p) :: withIdx (i + 1) rest).reverse = _
      rw [List.reverse_cons]
    rw [hrev, List.foldl_append, List.foldl_cons, List.foldl_nil]
    have ihr := ih (i + 1) s hc (fun q hq => h q (List.mem_cons_of_mem _ hq))
    have hp : p.onExit (some e0) = ExitOut.raises e0 := h p (List.mem_cons_self _ _)
    rw [aexitStep_raises_same _ (i, p) e0 ihr.1 hp]
    refine ⟨rfl, ihr.2.1, ?_⟩
    rw [ihr.2.2]
    simp [List.map_append, List.append_assoc]

theorem aexit_phase_clean : ∀ (pre : List Participant) (i : Nat) (s : AexitState),
    s.current = none →
    (∀ p ∈ pre, p.onExit none = ExitOut.stops false) →
    ((withIdx i pre).reverse.foldl aexitStep s).current = none
    ∧ ((withIdx i pre).reverse.foldl aexitStep s).causes = s.causes
    ∧ ((withIdx i pre).reverse.foldl aexitStep s).trace
      = s.trace ++ ((withIdx i pre).reverse).map
          (fun ip => Ev.exitCall ip.1 none) := by
  intro pre
  induction pre with
  | nil =>
    intro i s hc _
    exact ⟨hc, rfl, by simp [withIdx]⟩
  | cons p rest ih =>
    intro i s hc h
    have hrev : (withIdx i (p :: rest)).reverse
        = (withIdx (i + 1) rest).reverse ++ [(i, p)] := by
      show ((i, p) :: withIdx (i + 1) rest).reverse = _
      rw [List.reverse_cons]
    rw [hrev, List.foldl_append, List.foldl_cons, List.foldl_nil]
    have ihr := ih (i + 1) s hc (fun q hq => h q (List.mem_cons_of_mem _ hq))
    have hp : p.onExit ((withIdx (i + 1) rest).reverse.foldl aexitStep s).current
        = ExitOut.stops false := by
      rw [ihr.1]
      exact h p (List.mem_cons_self _ _)
    rw [aexitStep_stops_false _ (i, p) hp]
    refine ⟨rfl, ihr.2.1, ?_⟩
    rw [ihr.2.2, ihr.1]
    simp [List.map_append, List.append_assoc]

/-- C10: if the exit pass begins with a non-None handler error (`user n`),
the participants above `pk` propagate the injected error, and `pk` catches
the injected error and terminates returning None, then the current error
is cleared: every participant below `pk` is resumed normally
(`asend(None)`) instead of with the error, no cause is recorded, and the
final `raise current_error` executes with `current_error` None, so the
lifecycle ends in a `TypeError` instead of propagating the handler's error
or cleanly suppressing it. -/
theorem c10_swallow_clears_raise_none (pre post : List Participant)
    (pk : Participant) (n : Nat)
    (hpost : ∀ p ∈ post, p.onExit (some (Err.user n)) = ExitOut.raises (Err.user n))
    (hk : pk.onExit (some (Err.user n)) = ExitOut.stops false)
    (hpre : ∀ p ∈ pre, p.onExit none = ExitOut.stops false) :
    (aexit (pre ++ pk :: post) (some (Err.user n))).2.2 = AexitResult.raisedNone
    ∧ (aexit (pre ++ pk :: post) (some (Err.user n))).2.1 = []
    ∧ (aexit (pre ++ pk :: post) (some (Err.user n))).1
      = (((withIdx (pre.length + 1) post).reverse).map
           (fun ip => Ev.exitCall ip.1 (some (Err.user n)))
         ++ [Ev.exitCall pre.length (some (Err.user n))])
        ++ ((withIdx 0 pre).reverse).map (fun ip => Ev.exitCall ip.1 none) := by
  have hsplit : (withIdx 0 (pre ++ pk :: post)).reverse
      = ((withIdx (pre.length + 1) post).reverse ++ [(pre.length, pk)])
        ++ (withIdx 0 pre).reverse := by
    have h0 : (0 : Nat) + pre.length = pre.length := by omega
    rw [withIdx_append, h0]
    show (withIdx 0 pre ++ ((pre.length, pk) :: withIdx (pre.length + 1) post)).reverse = _
    rw [List.reverse_append, List.reverse_cons]
  have hph1 := aexit_phase_prop (Err.user n) post (pre.length + 1)
      (aexitInit (some (Err.user n))) rfl hpost
  have hk2 : pk.onExit ((withIdx (pre.length + 1) post).reverse.foldl aexitStep
      (aexitInit (some (Err.user n)))).current = ExitOut.stops false := by
    rw [hph1.1]; exact hk
  have hstep := aexitStep_stops_false _ (pre.length, pk) hk2
  have hph3 := aexit_phase_clean pre 0
      (aexitStep ((withIdx (pre.length + 1) post).reverse.foldl aexitStep
        (aexitInit (some (Err.user n)))) (pre.length, pk))
      (by rw [hstep]) hpre
  unfold aexit
  rw [hsplit, List.foldl_append, List.foldl_append, List.foldl_cons, List.foldl_nil]
  refine ⟨?_, ?_, ?_⟩
  · show (if _ = some (Err.user n) then _ else _) = _
    rw [hph3.1]
    rw [if_neg (by simp)]
  · show (_ : AexitState).causes = []
    rw [hph3.2.1, hstep]
    show ((withIdx (pre.length + 1) post).reverse.foldl aexitStep
      (aexitInit (some (Err.user n)))).causes = []
    rw [hph1.2.1]
    rfl
  · show (_ : AexitState).trace = _
    rw [hph3.2.2, hstep]
    show (((withIdx (pre.length + 1) post).reverse.foldl aexitStep
        (aexitInit (some (Err.user n)))).trace
      ++ [Ev.exitCall pre.length ((withIdx (pre.length + 1) post).reverse.foldl
            aexitStep (aexitInit (some (Err.user n)))).current])
      ++ ((withIdx 0 pre).reverse).map (fun ip => Ev.exitCall ip.1 none) = _
    rw [hph1.2.2, hph1.1]
    simp [aexitInit]

/-- C10 witness: with handler error `user 0`, participant 2 propagates it,
participant 1 catches it and terminates returning None, participant 0 is
then resumed normally, and `__aexit__` ends by raising None (a TypeError). -/
theorem c10_witness :
    (aexit [pCleanStop, pCleanStop, pPropagate] (some (Err.user 0))).2.2
      = AexitResult.raisedNone
    ∧ (aexit [pCleanStop, pCleanStop, pPropagate] (some (Err.user 0))).2.1 = []
    ∧ (aexit [pCleanStop, pCleanStop, pPropagate] (some (Err.user 0))).1
      = (((withIdx 2 [pPropagate]).reverse).map
           (fun ip => Ev.exitCall ip.1 (some (Err.user 0)))
         ++ [Ev.exitCall 1 (some (Err.user 0))])
        ++ ((withIdx 0 [pCleanStop]).reverse).map (fun ip => Ev.exitCall ip.1 none) :=
  c10_swallow_clears_raise_none [pCleanStop] [pPropagate] pCleanStop 0
    (by
      intro p hp
      rcases List.mem_singleton.mp hp with rfl
      rfl)
    rfl
    (by
      intro p hp
      rcases List.mem_singleton.mp hp with rfl
      rfl)

/-! ## Claim C8 -/

theorem collect_evs : ∀ (l : List Plugin) (i : Nat),
    (collectLoop i l).1 = (List.range' i l.length).map BootEv.activate := by
  intro l
  induction l with
  | nil => intro i; rfl
  | cons p rest ih =>
    intro i
    show BootEv.activate i :: (collectLoop (i + 1) rest).1 = _
    rw [List.length_cons, List.range'_succ, ih]
    rfl

theorem collect_prov_mem : ∀ (l : List Plugin) (i : Nat) (k : String),
    (k ∈ (collectLoop i l).2.2 ↔ ∃ p ∈ l, k ∈ p.provides.getD []) := by
  intro l
  induction l with
  | nil => intro i k; simp [collectLoop]
  | cons p rest ih =>
    intro i k
    show k ∈ p.provides.getD [] ++ (collectLoop (i + 1) rest).2.2 ↔ _
    rw [List.mem_append, ih (i + 1) k]
    simp

theorem check_evs : ∀ (l : List Plugin) (prov : List String) (i : Nat),
    ∀ ev ∈ (checkLoop prov i l).1, ∃ j, ev = BootEv.checkRequires j := by
  intro l
  induction l with
  | nil => intro prov i ev hev; simp [checkLoop] at hev
  | cons p rest ih =>
    intro prov i ev hev
    by_cases ht : missingTruthy (missingOf prov p) = true
    · simp only [checkLoop, ht, if_true, List.mem_singleton] at hev
      exact ⟨i, hev⟩
    · simp only [checkLoop, ht, if_false, Bool.false_eq_true, List.mem_cons] at hev
      rcases hev with rfl | hev
      · exact ⟨i, rfl⟩
      · exact ih prov (i + 1) ev hev

theorem check_isSome_iff : ∀ (l : List Plugin) (prov : List String) (i : Nat),
    (((checkLoop prov i l).2).isSome = true
      ↔ ∃ p ∈ l, missingTruthy (missingOf prov p) = true) := by
  intro l
  induction l with
  | nil => intro prov i; simp [checkLoop]
  | cons p rest ih =>
    intro prov i
    by_cases ht : missingTruthy (missingOf prov p) = true
    · simp only [checkLoop, ht, if_true]
      simp [ht]
    · simp only [checkLoop, ht, if_false, Bool.false_eq_true]
      rw [ih prov (i + 1)]
      constructor
      · rintro ⟨q, hq, hqt⟩
        exact ⟨q, List.mem_cons_of_mem _ hq, hqt⟩
      · rintro ⟨q, hq, hqt⟩
        rcases List.mem_cons.mp hq with rfl | hq2
        · exact absurd hqt ht
        · exact ⟨q, hq2, hqt⟩

theorem check_some_spec : ∀ (l : List Plugin) (prov : List String) (i j : Nat)
    (m : List String), (checkLoop prov i l).2 = some (j, m) →
    ∃ d, ∃ h : d < l.length, j = i + d ∧ m = missingOf prov (l.get ⟨d, h⟩) := by
  intro l
  induction l with
  | nil => intro prov i j m h; simp [checkLoop] at h
  | cons p rest ih =>
    intro prov i j m h
    by_cases ht : missingTruthy (missingOf prov p) = true
    · simp only [checkLoop, ht, if_true, Option.some.injEq, Prod.mk.injEq] at h
      exact ⟨0, by simp, by omega, h.2.symm⟩
    · simp only [checkLoop, ht, if_false, Bool.false_eq_true] at h
      rcases ih prov (i + 1) j m h with ⟨d, hd, hj, hm⟩
      exact ⟨d + 1, by simpa using hd, by omega, hm⟩

theorem missingTruthy_iff (m : List String) :
    missingTruthy m = true ↔ ∃ k ∈ m, k ≠ "" := by
  simp [missingTruthy, List.any_eq_true]

/-- C8 (counterexample): a plugin whose `requires` minus the provided-set
is the non-empty set holding only the empty-string key does not fail boot:
the code tests the comma-joined string `', '.join(missing)` for
truthiness, and the join of the single empty-string key is the empty
(falsy) string, so the check passes although the difference is non-empty. -/
theorem c8_counterexample :
    (activePlugins [] [pluginEmptyReq]).2.2 = none
    ∧ missingOf (activePlugins [] [pluginEmptyReq]).2.1 pluginEmptyReq = [""]
    ∧ ([""] : List String) ≠ [] := by
  refine ⟨rfl, by decide, by decide⟩

/-- C8 (amended): the requires validation runs only after every plugin's
activation event; the provided-set is exactly the union of the namespaced
configuration field keys and every plugin's `provides` list; boot fails if
and only if some plugin's `requires` minus the provided-set holds at least
one non-empty key (a difference consisting solely of the empty-string key
is missed, because the code tests the comma-joined string for truthiness);
and a failure names an offending plugin index together with exactly that
plugin's missing keys. -/
theorem c8_validation (cf : List String) (ps : List Plugin) :
    (∃ cevs, (activePlugins cf ps).1
        = (List.range ps.length).map BootEv.activate ++ cevs
      ∧ ∀ ev ∈ cevs, ∃ j, ev = BootEv.checkRequires j)
    ∧ (∀ k, k ∈ (activePlugins cf ps).2.1
        ↔ ((∃ f ∈ cf, k = "config." ++ f) ∨ ∃ p ∈ ps, k ∈ p.provides.getD []))
    ∧ (((activePlugins cf ps).2.2).isSome = true
        ↔ ∃ p ∈ ps, ∃ k ∈ missingOf ((activePlugins cf ps).2.1) p, k ≠ "")
    ∧ (∀ i m, (activePlugins cf ps).2.2 = some (i, m) →
        ∃ h : i < ps.length, m = missingOf ((activePlugins cf ps).2.1) (ps.get ⟨i, h⟩)) := by
  refine ⟨?_, ?_, ?_, ?_⟩
  · refine ⟨(checkLoop ((activePlugins cf ps).2.1) 0 ps).1, ?_, ?_⟩
    · show (collectLoop 0 ps).1 ++ (checkLoop _ 0 ps).1 = _
      rw [collect_evs ps 0, ← List.range_eq_range']
      rfl
    · exact check_evs ps _ 0
  · intro k
    show k ∈ cf.map (fun f => "config." ++ f) ++ (collectLoop 0 ps).2.2 ↔ _
    rw [List.mem_append, collect_prov_mem ps 0 k]
    simp [eq_comm]
  · show ((checkLoop _ 0 ps).2).isSome = true ↔ _
    rw [check_isSome_iff ps _ 0]
    constructor
    · rintro ⟨p, hp, ht⟩
      exact ⟨p, hp, (missingTruthy_iff _).mp ht⟩
    · rintro ⟨p, hp, hk⟩
      exact ⟨p, hp, (missingTruthy_iff _).mpr hk⟩
  · intro i m h
    rcases check_some_spec ps _ 0 i m h with ⟨d, hd, hj, hm⟩
    have : i = d := by omega
    subst this
    exact ⟨hd, hm⟩

/-- C8 witness: the spec's boot scenario — P1 provides `cache`, P2 requires
`cache` and `config.debug`, the config declares `debug` — boots with no
dependency failure, and removing P1 makes the validation fail. -/
theorem c8_witness :
    ((activePlugins ["debug"]
        [⟨some ["cache"], none, false, false⟩,
         ⟨none, some ["cache", "config.debug"], false, false⟩]).2.2).isSome = false
    ∧ ((activePlugins ["debug"]
        [⟨none, some ["cache", "config.debug"], false, false⟩]).2.2).isSome = true := by
  constructor
  · decide
  · exact (c8_validation ["debug"]
      [⟨none, some ["cache", "config.debug"], false, false⟩]).2.2.1.mpr
      ⟨⟨none, some ["cache", "config.debug"], false, false⟩, by simp,
       "cache", by decide, by decide⟩

/-! ## Claim C9 -/

/-- C9: for every outcome of the routed-method call, the handler adapter
maps a domain (`HrpcError`) error to the structured error response built
from it, passes a transport-native (`HttpError`) error through unmodified,
converts any other exception to the generic internal-failure response, and
lets no error other than a transport-native one escape. -/
theorem c9_error_containment (o : HandlerOutcome) :
    (∀ k, o = HandlerOutcome.raised (RaisedExc.hrpc k) →
      appHandler o = Except.ok (HttpRes.errorResponseOf k))
    ∧ (∀ n, o = HandlerOutcome.raised (RaisedExc.http n) →
      appHandler o = Except.error (RaisedExc.http n))
    ∧ (∀ m, o = HandlerOutcome.raised (RaisedExc.otherExc m) →
      appHandler o = Except.ok (HttpRes.errorResponseOf HrpcKind.internalFailure))
    ∧ (∀ e, appHandler o = Except.error e → ∃ n, e = RaisedExc.http n) := by
  refine ⟨?_, ?_, ?_, ?_⟩
  · rintro k rfl; rfl
  · rintro n rfl; rfl
  · rintro m rfl; rfl
  · intro e h
    cases o with
    | ok r => simp [appHandler] at h
    | raised ex =>
      cases ex with
      | hrpc k => simp [appHandler] at h
      | http n =>
        simp only [appHandler, Except.error.injEq] at h
        exact ⟨n, h.symm⟩
      | otherExc m => simp [appHandler] at h

/-- C9 witness: the theorem at a raised transport-native error: it passes
through unmodified. -/
theorem c9_witness :
    appHandler (HandlerOutcome.raised (RaisedExc.http 7))
      = Except.error (RaisedExc.http 7) :=
  (c9_error_containment (HandlerOutcome.raised (RaisedExc.http 7))).2.1 7 rfl
